import Mathlib

/-!
# SceneAccessInterface (x3ogre): bounding-box traversal, update queue, scene lifecycle

A shallow embedding of `src/core/SceneAccessInterface.cpp`.

* Part I   : `getWorldBoundingBox` (explicit-stack traversal of an Ogre scene-node tree).
* Part II  : the manager state with its mutex, `scene`, `setNodeAttribute`, `clearWorld`,
             `loadURL`, `frameStarted`.
* Part III : theorems.
-/

namespace X3D

/-! ## Part I : bounding boxes and the scene-node tree -/

/-- Three coordinates (`Ogre::Vector3`). The coordinate type `R` is any linear order: the
traversal only ever compares coordinates, it performs no arithmetic on them. -/
structure Vector3 (R : Type) where
  x : R
  y : R
  z : R
deriving DecidableEq, Repr

/-- Component-wise minimum, in place in the source (`Vector3::makeFloor`). -/
def Vector3.makeFloor {R : Type} [LinearOrder R] (a cmp : Vector3 R) : Vector3 R :=
  ⟨min a.x cmp.x, min a.y cmp.y, min a.z cmp.z⟩

/-- Component-wise maximum, in place in the source (`Vector3::makeCeil`). -/
def Vector3.makeCeil {R : Type} [LinearOrder R] (a cmp : Vector3 R) : Vector3 R :=
  ⟨max a.x cmp.x, max a.y cmp.y, max a.z cmp.z⟩

/-- Component-wise order on corners. -/
def Vector3.le {R : Type} [LinearOrder R] (a b : Vector3 R) : Prop :=
  a.x ≤ b.x ∧ a.y ≤ b.y ∧ a.z ≤ b.z

instance {R : Type} [LinearOrder R] (a b : Vector3 R) : Decidable (Vector3.le a b) := by
  unfold Vector3.le; infer_instance

/-- Modelled from the spec: the engine's `Ogre::AxisAlignedBox` is not part of the sources.
The data model describes it as "an axis-aligned box in world space, represented by min/max
corners; supports null (empty) state and a merge operation ... with null as identity". -/
inductive AxisAlignedBox (R : Type) where
  | null
  | finite (minimum maximum : Vector3 R)
deriving DecidableEq, Repr

/-- Modelled from the spec: `bbox.merge(rhs)` of the engine, the smallest box around both
operands, with the null box as identity. -/
def AxisAlignedBox.merge {R : Type} [LinearOrder R] :
    AxisAlignedBox R → AxisAlignedBox R → AxisAlignedBox R
  | b, .null => b
  | .null, .finite mn mx => .finite mn mx
  | .finite mn mx, .finite mn2 mx2 => .finite (mn.makeFloor mn2) (mx.makeCeil mx2)

/-- Modelled from the spec: `b.contains other`, box containment ("⊆" of the testable
properties): the null box is contained in every box, a finite box only in a finite box whose
corners enclose it. -/
def AxisAlignedBox.contains {R : Type} [LinearOrder R] :
    AxisAlignedBox R → AxisAlignedBox R → Prop
  | _, .null => True
  | .null, .finite _ _ => False
  | .finite mn mx, .finite mn2 mx2 => Vector3.le mn mn2 ∧ Vector3.le mx2 mx

instance {R : Type} [LinearOrder R] (a b : AxisAlignedBox R) :
    Decidable (AxisAlignedBox.contains a b) := by
  cases a <;> cases b <;> unfold AxisAlignedBox.contains <;> infer_instance

/-- An `Ogre::SceneNode` together with the subtree hanging below it. `id` stands for the
address of the node (the source compares nodes by pointer), `worldAABB` for the box that
`node->_updateBounds(); node->_getWorldAABB()` yields, `children` for the nodes produced by
`node->getChildIterator()`, in iteration order. -/
inductive SceneNode (R : Type) where
  | mk (id : Nat) (worldAABB : AxisAlignedBox R) (children : List (SceneNode R))

/-- Address of the node. -/
def SceneNode.id {R : Type} : SceneNode R → Nat
  | .mk i _ _ => i

/-- Result of `_updateBounds()` followed by `_getWorldAABB()`. -/
def SceneNode._getWorldAABB {R : Type} : SceneNode R → AxisAlignedBox R
  | .mk _ b _ => b

/-- Children in the order of `getChildIterator()`. -/
def SceneNode.children {R : Type} : SceneNode R → List (SceneNode R)
  | .mk _ _ cs => cs

/-- The inner `while (j.hasMoreElements())` loop of `getWorldBoundingBox`: every child that is
not `leftOut` is pushed on the work stack. The `std::vector` used as a stack is a list whose
head is `nodes.back()`; `leftOut = none` is `nullptr`, which no child equals. -/
def pushChildren {R : Type} (leftOut : Option Nat) :
    List (SceneNode R) → List (SceneNode R) → List (SceneNode R)
  | [], nodes => nodes
  | nextNode :: more, nodes =>
      if some nextNode.id ≠ leftOut then pushChildren leftOut more (nextNode :: nodes)
      else pushChildren leftOut more nodes

/-- The outer `while (not nodes.empty())` loop of `getWorldBoundingBox`: pop the back of the
stack, merge its world box into `bbox`, push its children. The recursion is justified by the
total size of the subtrees on the stack, so the loop is total. -/
def traverse {R : Type} [LinearOrder R] (leftOut : Option Nat) :
    List (SceneNode R) → AxisAlignedBox R → AxisAlignedBox R
  | [], bbox => bbox
  | node :: nodes, bbox =>
      traverse leftOut (pushChildren leftOut node.children nodes) (bbox.merge node._getWorldAABB)
termination_by nodes => sizeOf nodes
decreasing_by
  have key : ∀ (cs st : List (SceneNode R)),
      sizeOf (pushChildren leftOut cs st) + 1 ≤ sizeOf cs + sizeOf st := by
    intro cs
    induction cs with
    | nil => intro st; simp [pushChildren]; omega
    | cons c cs ih =>
      intro st
      simp only [pushChildren]
      split
      · have h := ih (c :: st)
        simp only [List.cons.sizeOf_spec] at h ⊢
        omega
      · have h := ih st
        simp only [List.cons.sizeOf_spec] at h ⊢
        omega
  have h := key node.children nodes
  cases node with
  | mk i b cs =>
    simp only [SceneNode.children, List.cons.sizeOf_spec, SceneNode.mk.sizeOf_spec] at h ⊢
    omega

/-- The function `getWorldBoundingBox(node, leftOut)` of the anonymous namespace: `bbox` starts
as the world box of `node`, the stack as `[node]`. -/
def getWorldBoundingBox {R : Type} [LinearOrder R] (node : SceneNode R)
    (leftOut : Option Nat) : AxisAlignedBox R :=
  traverse leftOut [node] node._getWorldAABB

/-- Merge of the world boxes of a list of nodes into a starting box, left to right. -/
def mergeAll {R : Type} [LinearOrder R] (bbox : AxisAlignedBox R) (ns : List (SceneNode R)) :
    AxisAlignedBox R :=
  ns.foldl (fun acc n => acc.merge n._getWorldAABB) bbox

/-- The relation `Kept leftOut root d`: `d` is `root` itself, or a descendant of `root` such that
neither `d` nor any ancestor of `d` strictly below `root` is the node `leftOut`. -/
inductive Kept {R : Type} (leftOut : Option Nat) : SceneNode R → SceneNode R → Prop where
  | self (r : SceneNode R) : Kept leftOut r r
  | step (r c d : SceneNode R) : c ∈ r.children → some c.id ≠ leftOut → Kept leftOut c d →
      Kept leftOut r d

mutual
/-- The nodes of the claim about the traversal, listed in pre-order: the root, then the kept
nodes below each child other than `leftOut`. -/
def keptNodes {R : Type} (leftOut : Option Nat) : SceneNode R → List (SceneNode R)
  | .mk i b cs => .mk i b cs :: keptChildren leftOut cs
/-- The kept nodes below a list of siblings. -/
def keptChildren {R : Type} (leftOut : Option Nat) : List (SceneNode R) → List (SceneNode R)
  | [] => []
  | c :: cs =>
      if some c.id ≠ leftOut then keptNodes leftOut c ++ keptChildren leftOut cs
      else keptChildren leftOut cs
end

/-- The kept nodes of every tree on a work stack. -/
def keptStack {R : Type} (leftOut : Option Nat) : List (SceneNode R) → List (SceneNode R)
  | [] => []
  | n :: ns => keptNodes leftOut n ++ keptStack leftOut ns

mutual
/-- Addresses of all nodes of a tree, root first. -/
def SceneNode.addresses {R : Type} : SceneNode R → List Nat
  | .mk i _ cs => i :: addressesOfList cs
/-- Addresses of all nodes of a list of trees. -/
def addressesOfList {R : Type} : List (SceneNode R) → List Nat
  | [] => []
  | c :: cs => c.addresses ++ addressesOfList cs
end

/-- A tree of scene nodes is well formed when no two of its nodes share an address. -/
def SceneNode.distinct {R : Type} (n : SceneNode R) : Prop := n.addresses.Nodup

instance {R : Type} (n : SceneNode R) : Decidable n.distinct := by
  unfold SceneNode.distinct; infer_instance

/-- A small tree: root 1 with children 2 (which has child 4) and 3. -/
def sampleTree : SceneNode Int :=
  .mk 1 (.finite ⟨0, 0, 0⟩ ⟨1, 1, 1⟩)
    [.mk 2 (.finite ⟨-5, 0, 0⟩ ⟨0, 1, 1⟩) [.mk 4 (.finite ⟨0, 0, 0⟩ ⟨9, 9, 9⟩) []],
     .mk 3 (.finite ⟨0, -2, 0⟩ ⟨1, 1, 3⟩) []]

/-! ## Part II : the manager -/

/-- The ways in which a call of the source can end without returning. `catch (Ogre::Exception&)`
catches the first kind only; a member access through a null pointer is undefined behaviour
and is recorded as a fault of its own. -/
inductive Failure where
  | ogreException (description : String)
  | otherException (what : String)
  | nullDereference
deriving DecidableEq, Repr

/-- What becomes of a call that may take `_updateMutex`: it returns a value, it leaves through
a failure, or it waits for ever for a mutex that is held and that nothing releases. -/
inductive Outcome (α : Type) where
  | ok (a : α)
  | error (e : Failure)
  | blocked

/-- The order `operator<` of `std::string`: lexicographic on the characters. -/
def strLt (a b : String) : Prop := a.toList < b.toList

instance (a b : String) : Decidable (strLt a b) := by
  unfold strLt; infer_instance

/-- The key of `_updates`, `std::pair<std::string,std::string>`: node name, field name. -/
abbrev FieldKey := String × String

/-- The order `operator<` of `std::pair`: `a.first < b.first || (!(b.first < a.first) &&
a.second < b.second)`; it is the `std::less` that orders the keys of `_updates`. -/
def FieldKey.lt (a b : FieldKey) : Prop :=
  strLt a.1 b.1 ∨ (¬ strLt b.1 a.1 ∧ strLt a.2 b.2)

instance (a b : FieldKey) : Decidable (FieldKey.lt a b) := by
  unfold FieldKey.lt; infer_instance

/-- The statement `_updates[key] = value` on a `std::map`, whose entries are kept in ascending
key order: a key equivalent to `key` (neither is less than the other) keeps its place and
gets the new value, otherwise the entry is inserted at its place in the order. -/
def mapAssign (key : FieldKey) (value : String) :
    List (FieldKey × String) → List (FieldKey × String)
  | [] => [(key, value)]
  | (k, v) :: rest =>
      if FieldKey.lt key k then (key, value) :: (k, v) :: rest
      else if FieldKey.lt k key then (k, v) :: mapAssign key value rest
      else (k, value) :: rest

/-- The invariant of a `std::map`: keys strictly ascending along the iteration order. -/
def mapOrdered (m : List (FieldKey × String)) : Prop :=
  m.Pairwise (fun a b => FieldKey.lt a.1 b.1)

instance (m : List (FieldKey × String)) : Decidable (mapOrdered m) := by
  unfold mapOrdered; infer_instance

/-- The manager together with the part of the engine it acts on, as they stand between two
calls; `σ` is the type of X3D scenes (`Scene`, declared outside the sources at hand).

* `_rootNode`, `_basePath`, `_fileName`, `init`, `_updates` are the members of
  `SceneAccessInterface` that the functions below read; `_rootNode = none` is `nullptr`.
* `_updateMutex` is `true` when the mutex is held. Between two calls that is the case only
  after a `frameStarted` that left through a failure of its loop, past its `unlock()`: the
  entry that failed is then still in `_updates`, and no call can change `_updates` while the
  mutex is held. This is the invariant `heldPending`.
* `x3d_scene r` is the scene held by the user-object binding `"x3d_scene"` of the Ogre scene
  node at address `r`, `none` when the node carries no such binding.
* `x3dLocations` are the resource locations registered in the resource group `"X3D"`. -/
structure State (σ : Type) where
  _rootNode : Option Nat
  _basePath : String
  _fileName : String
  init : Bool
  _updates : List (FieldKey × String)
  _updateMutex : Bool
  x3d_scene : Nat → Option σ
  x3dLocations : List String
  heldPending : _updateMutex = true → _updates ≠ []

/-- The manager right after construction: the constructor of the source sets none of the
members above, `_rootNode` has its in-class initialiser `nullptr`, nothing is pending, the
mutex is free. The declaration of `init` is not in the header at hand; it is taken to start
as `false`, the value under which the first `loadURL` skips the clear of a reload. -/
def State.fresh (σ : Type) : State σ :=
  { _rootNode := none, _basePath := "", _fileName := "", init := false, _updates := [],
    _updateMutex := false, x3d_scene := fun _ => none, x3dLocations := [],
    heldPending := by simp }

/-- Code of the repository and of the engine that the source calls and that is not part of the
sources at hand, taken as parameters; `ν` is the type of node handles (`Node*`).

* `getNode sc name` is `sc->getNode(name)`.
* `callMember sc obj field value` is `reflection::getTypeInfo(*obj)->callMember(obj, field,
  value)`; it yields the scene after the write.
* `splitFilename url` is `Ogre::StringUtil::splitFilename`, giving `(filename, basepath)`.
* `load filename root bindings` is `_x3dFM->load(filename, "X3D", root)`; it yields the
  `"x3d_scene"` bindings after loading.
* `initialiseAndFill sc` is `sc->initialiseAndFill(world)`.

A call that fails is taken to leave the scene as it found it. -/
structure Externals (σ ν : Type) where
  getNode : σ → String → Except Failure ν
  callMember : σ → ν → String → String → Except Failure σ
  splitFilename : String → String × String
  load : String → Nat → (Nat → Option σ) → Except Failure (Nat → Option σ)
  initialiseAndFill : σ → Except Failure σ

/-- The `Ogre::Exception` that the by-value `Ogre::any_cast` raises when the `Any` it is given
does not hold the requested type, as the empty `Any` that `getUserAny` gives for a key that
is not bound. -/
def badAnyCast : Failure := .ogreException "Bad cast"

section Manager

variable {σ ν : Type}

/-- The function `SceneAccessInterface::scene()`: `_rootNode` is dereferenced without a check,
and the by-value `any_cast` of the binding `"x3d_scene"` raises when the root carries no
such binding. When it returns, it returns the bound scene. -/
def scene (s : State σ) : Except Failure σ :=
  match s._rootNode with
  | none => .error .nullDereference
  | some r =>
    match s.x3d_scene r with
    | none => .error badAnyCast
    | some sc => .ok sc

/-- The scene object behind `scene()` after a member call changed it in place. -/
def State.withScene (s : State σ) (sc : σ) : State σ :=
  match s._rootNode with
  | none => s
  | some r => { s with x3d_scene := Function.update s.x3d_scene r (some sc) }

/-- The function `SceneAccessInterface::setNodeAttribute`. Buffered: under a
`std::lock_guard` on `_updateMutex`, which waits for ever when the mutex is held, the value
is stored under the key `(nodeName, fieldName)` of `_updates`. Immediate: the node is looked
up in `scene()` and the member is written through the reflection layer; the mutex is not
touched. -/
def setNodeAttribute (E : Externals σ ν) (s : State σ) (nodeName fieldName fieldValue : String)
    (buffer : Bool) : Outcome (State σ) :=
  if buffer then
    if h : s._updateMutex = true then .blocked
    else
      .ok { s with _updates := mapAssign (nodeName, fieldName) fieldValue s._updates,
                   heldPending := fun h2 => absurd h2 h }
  else
    match scene s with
    | .error e => .error e
    | .ok sc =>
      match E.getNode sc nodeName with
      | .error e => .error e
      | .ok obj =>
        match E.callMember sc obj fieldName fieldValue with
        | .error e => .error e
        | .ok sc2 => .ok (s.withScene sc2)

/-- The function `SceneAccessInterface::clearWorld`: when `scene()` returns, its result is the
bound scene, the test `if (scene())` succeeds, the binding `"x3d_scene"` of the root is
erased and the location `_basePath` is removed from the resource group
(`unloadResourceGroup` has no effect on the state kept here). -/
def clearWorld (s : State σ) : Except Failure (State σ) :=
  match scene s with
  | .error e => .error e
  | .ok _ =>
    match s._rootNode with
    | none => .error .nullDereference
    | some r =>
      .ok { s with x3d_scene := Function.update s.x3d_scene r none,
                   x3dLocations := s.x3dLocations.filter (fun l => l ≠ s._basePath) }

/-- First part of `SceneAccessInterface::loadURL`, up to and including `_x3dFM->load`: the
implicit clear of a reload, the registration of the base path, the assignments to the
members, the loader. The result is the state reached and the failure raised, if any. The
branch under `#ifdef ANDROID` and the assignment to `_camTgt`, which no function of the
source reads, are left out. -/
def loadURLBegin (E : Externals σ ν) (s : State σ) (url : String) (rootNode : Nat) :
    State σ × Option Failure :=
  match (if s.init then
      match clearWorld s with
      | .error e => .error e
      | .ok t => .ok { t with init := false }
    else (.ok s : Except Failure (State σ))) with
  | .error e => (s, some e)
  | .ok s1 =>
    let filename := (E.splitFilename url).1
    let basepath := (E.splitFilename url).2
    let s2 : State σ :=
      if basepath ≠ "" ∧ basepath ∉ s1.x3dLocations then
        { s1 with x3dLocations := basepath :: s1.x3dLocations }
      else s1
    let s3 : State σ :=
      { s2 with _fileName := filename, _basePath := basepath, _rootNode := some rootNode }
    match E.load filename rootNode s3.x3d_scene with
    | .error e => (s3, some e)
    | .ok bindings => ({ s3 with x3d_scene := bindings }, none)

/-- The body of the `try` block of `loadURL`: `World world = {rootNode->getCreator(), scene()};
world.scene()->initialiseAndFill(world);`. -/
def initialiseWorld (E : Externals σ ν) (s : State σ) : Except Failure (State σ) :=
  match scene s with
  | .error e => .error e
  | .ok sc =>
    match E.initialiseAndFill sc with
    | .error e => .error e
    | .ok sc2 => .ok (s.withScene sc2)

/-- Second part of `loadURL`: the `try` block, its handler `catch (Ogre::Exception& e)
{ clearWorld(); throw e; }`, and `init = true`. A failure that is not an `Ogre::Exception`
passes the handler by. -/
def loadURLEnd (E : Externals σ ν) (s : State σ) : State σ × Option Failure :=
  match initialiseWorld E s with
  | .ok s2 => ({ s2 with init := true }, none)
  | .error (.ogreException d) =>
    match clearWorld s with
    | .ok s2 => (s2, some (.ogreException d))
    | .error e2 => (s, some e2)
  | .error e => (s, some e)

/-- The function `SceneAccessInterface::loadURL(url, rootNode)`: the state it leaves behind and
the failure it raises, if any. -/
def loadURL (E : Externals σ ν) (s : State σ) (url : String) (rootNode : Nat) :
    State σ × Option Failure :=
  match loadURLBegin E s url rootNode with
  | (s2, some e) => (s2, some e)
  | (s2, none) => loadURLEnd E s2

/-- What the loop of `frameStarted` leaves behind: the state, the entries whose immediate write
was carried out, in the order of the calls, and how the loop ended. -/
structure Applied (σ : Type) where
  state : State σ
  written : List (FieldKey × String)
  ended : Outcome Unit

/-- The loop `for (const auto& up : _updates) setNodeAttribute(up.first.first,
up.first.second, up.second, false);` over the entries still to be visited. A call that does
not return ends the loop. -/
def applyUpdates (E : Externals σ ν) : List (FieldKey × String) → State σ → Applied σ
  | [], s => { state := s, written := [], ended := .ok () }
  | up :: rest, s =>
    match setNodeAttribute E s up.1.1 up.1.2 up.2 false with
    | .error e => { state := s, written := [], ended := .error e }
    | .blocked => { state := s, written := [], ended := .blocked }
    | .ok s2 =>
      let r := applyUpdates E rest s2
      { state := r.state, written := up :: r.written, ended := r.ended }

/-- The state in which a `frameStarted` that leaves through a failure of its loop leaves the
manager: the mutex taken at its entry stays held. The loop failed at an entry of `_updates`
and changed none, so `_updates` is not empty. -/
def State.leftLocked (s : State σ) : State σ :=
  if h : s._updates = [] then s
  else { s with _updateMutex := true, heldPending := fun _ => h }

/-- The outcome of one call of `frameStarted`: the state, the immediate writes carried out,
whether `Ogre::Node::processQueuedUpdates()` was reached, and what became of the call. -/
structure Frame (σ : Type) where
  state : State σ
  written : List (FieldKey × String)
  processedQueuedUpdates : Bool
  result : Outcome Bool

/-- The function `SceneAccessInterface::frameStarted`: `_updateMutex.lock()`, which waits for
ever when the mutex is held, the loop over `_updates`, `_updates.clear()`,
`_updateMutex.unlock()`, `Ogre::Node::processQueuedUpdates()` (which acts on engine data
outside the state kept here), `return true`. The function has no handler: a failure in the
loop leaves it at once, before `_updates.clear()` and `_updateMutex.unlock()`. The calls of
the loop do not touch the mutex, so the state records it only where the function is left. -/
def frameStarted (E : Externals σ ν) (s : State σ) : Frame σ :=
  if s._updateMutex = true then
    { state := s, written := [], processedQueuedUpdates := false, result := .blocked }
  else
    let r := applyUpdates E s._updates s
    match r.ended with
    | .error e =>
      { state := r.state.leftLocked, written := r.written, processedQueuedUpdates := false,
        result := .error e }
    | .blocked =>
      { state := r.state.leftLocked, written := r.written, processedQueuedUpdates := false,
        result := .blocked }
    | .ok _ =>
      { state := { r.state with _updates := [], _updateMutex := false,
                                heldPending := by simp },
        written := r.written, processedQueuedUpdates := true, result := .ok true }

/-- Every immediate write of the loop of `frameStarted` succeeds: the write of the first entry
succeeds on the current state, and so on for the following entries on the states reached. -/
def writesSucceed (E : Externals σ ν) : List (FieldKey × String) → State σ → Prop
  | [], _ => True
  | up :: rest, s =>
    ∃ s2, setNodeAttribute E s up.1.1 up.1.2 up.2 false = .ok s2 ∧ writesSucceed E rest s2

end Manager

/-- Modelled from the spec: a scene as a table from node names to field names to values, for
concrete runs. The classes `Scene`, `Node` and the reflection layer are not part of the sources
at hand; the external interfaces say of them that node lookup "fails with a not-found error if
no node with that name exists" and that the attribute dispatcher "fails with an invalid-field
error if `fieldName` is unrecognized". -/
abbrev TableScene := List (String × List (String × String))

/-- Modelled from the spec: node lookup by name in a table scene. -/
def tableGetNode (sc : TableScene) (name : String) : Except Failure String :=
  if sc.any (fun n => n.1 == name) then .ok name else .error (.otherException "NotFound")

/-- Modelled from the spec: write of a field of a node of a table scene. -/
def tableCallMember (sc : TableScene) (obj field value : String) : Except Failure TableScene :=
  match sc.lookup obj with
  | none => .error (.otherException "NotFound")
  | some fields =>
    if fields.any (fun f => f.1 == field) then
      .ok (sc.map (fun n =>
        if n.1 == obj then
          (n.1, n.2.map (fun f => if f.1 == field then (field, value) else f))
        else n))
    else .error (.otherException "InvalidField")

/-- A scene with the node `"b"`, whose fields are `"f"` and `"g"`, and the node `"d"`, whose
field is `"h"`. -/
def sampleScene : TableScene := [("b", [("f", "0"), ("g", "0")]), ("d", [("h", "0")])]

/-- Split of a path after its last `/`, giving `(filename, basepath)`. -/
def sampleSplitFilename (url : String) : String × String :=
  (String.mk (url.toList.reverse.takeWhile (fun c => c ≠ '/')).reverse,
   String.mk (url.toList.reverse.dropWhile (fun c => c ≠ '/')).reverse)

/-- Collaborators for concrete runs: table scenes, a loader that binds `sampleScene` to the
root, and a post-load initialisation that fails with `initFailure` when one is given. -/
def tableExternals (initFailure : Option Failure) : Externals TableScene String :=
  { getNode := tableGetNode
    callMember := tableCallMember
    splitFilename := sampleSplitFilename
    load := fun _ root bindings => .ok (Function.update bindings root (some sampleScene))
    initialiseAndFill := fun sc =>
      match initFailure with
      | none => .ok sc
      | some e => .error e }

/-- A manager with the mutex free whose root, the node at address 1, carries the scene `sc`,
with the given pending updates. -/
def boundStateWith (sc : TableScene) (pending : List (FieldKey × String)) : State TableScene :=
  { _rootNode := some 1, _basePath := "models/", _fileName := "scene.x3d", init := true,
    _updates := pending, _updateMutex := false,
    x3d_scene := Function.update (fun _ => none) 1 (some sc),
    x3dLocations := ["models/"], heldPending := by simp }

/-- A manager whose root, the node at address 1, carries `sampleScene`, with the given pending
updates. -/
def boundState (pending : List (FieldKey × String)) : State TableScene :=
  boundStateWith sampleScene pending

/-- The state that a `frameStarted` leaves when the scene has no node yet and a write to field
`"f"` of node `"b"` is pending: the write fails and the mutex stays held. -/
def afterRaisingFrame : State TableScene :=
  (frameStarted (tableExternals none) (boundStateWith [] [(("b", "f"), "2")])).state

/-- The state `afterRaisingFrame` after `loadURL` has replaced the scene by `sampleScene`,
which has the node `"b"`. -/
def reloadedAfterRaisingFrame : State TableScene :=
  (loadURL (tableExternals none) afterRaisingFrame "models/scene.x3d" 1).1

/-! ## Part III : theorems -/

namespace AxisAlignedBox

variable {R : Type} [LinearOrder R]

theorem merge_null_left (b : AxisAlignedBox R) : merge .null b = b := by
  cases b <;> rfl

theorem merge_null_right (b : AxisAlignedBox R) : merge b .null = b := by
  cases b <;> rfl

theorem merge_idem (b : AxisAlignedBox R) : merge b b = b := by
  cases b <;> simp [merge, Vector3.makeFloor, Vector3.makeCeil]

theorem merge_comm (a b : AxisAlignedBox R) : merge a b = merge b a := by
  cases a <;> cases b <;> simp [merge, Vector3.makeFloor, Vector3.makeCeil, min_comm, max_comm]

theorem merge_assoc (a b c : AxisAlignedBox R) : merge (merge a b) c = merge a (merge b c) := by
  cases a <;> cases b <;> cases c <;>
    simp [merge, Vector3.makeFloor, Vector3.makeCeil, min_assoc, max_assoc]

theorem merge_right_comm (a b c : AxisAlignedBox R) :
    merge (merge a b) c = merge (merge a c) b := by
  rw [merge_assoc, merge_comm b c, ← merge_assoc]

theorem contains_refl (a : AxisAlignedBox R) : contains a a := by
  cases a <;> simp [contains, Vector3.le]

theorem contains_trans {a b c : AxisAlignedBox R} (hab : contains a b) (hbc : contains b c) :
    contains a c := by
  cases a <;> cases b <;> cases c <;> simp_all [contains, Vector3.le]
  obtain ⟨⟨h1, h2, h3⟩, h4, h5, h6⟩ := hab
  obtain ⟨⟨g1, g2, g3⟩, g4, g5, g6⟩ := hbc
  exact ⟨⟨le_trans h1 g1, le_trans h2 g2, le_trans h3 g3⟩,
    le_trans g4 h4, le_trans g5 h5, le_trans g6 h6⟩

theorem contains_antisymm {a b : AxisAlignedBox R} (hab : contains a b) (hba : contains b a) :
    a = b := by
  cases a <;> cases b <;> simp_all [contains, Vector3.le]
  rename_i mn mx mn2 mx2
  obtain ⟨⟨h1, h2, h3⟩, h4, h5, h6⟩ := hab
  obtain ⟨⟨g1, g2, g3⟩, g4, g5, g6⟩ := hba
  cases mn; cases mx; cases mn2; cases mx2
  simp only [Vector3.mk.injEq]
  exact ⟨⟨le_antisymm h1 g1, le_antisymm h2 g2, le_antisymm h3 g3⟩,
    le_antisymm g4 h4, le_antisymm g5 h5, le_antisymm g6 h6⟩

theorem contains_merge_left (a b : AxisAlignedBox R) : contains (merge a b) a := by
  cases a <;> cases b <;> simp [merge, contains, Vector3.le, Vector3.makeFloor, Vector3.makeCeil]

theorem contains_merge_right (a b : AxisAlignedBox R) : contains (merge a b) b := by
  rw [merge_comm]; exact contains_merge_left b a

theorem contains_merge {a b c : AxisAlignedBox R} (ha : contains c a) (hb : contains c b) :
    contains c (merge a b) := by
  cases a <;> cases b <;> cases c <;>
    simp_all [merge, contains, Vector3.le, Vector3.makeFloor, Vector3.makeCeil]

end AxisAlignedBox

section KeptNodes

variable {R : Type}

theorem keptStack_pushChildren (leftOut : Option Nat) (cs st : List (SceneNode R)) :
    (keptStack leftOut (pushChildren leftOut cs st)).Perm
      (keptChildren leftOut cs ++ keptStack leftOut st) := by
  induction cs generalizing st with
  | nil => simp [pushChildren, keptChildren]
  | cons c cs ih =>
    by_cases hc : some c.id ≠ leftOut
    · simp only [pushChildren, keptChildren, if_pos hc]
      refine (ih (c :: st)).trans ?_
      simp only [keptStack, List.append_assoc]
      exact (List.perm_append_comm_assoc _ _ _)
    · simp only [pushChildren, keptChildren, if_neg hc]
      exact ih st

theorem keptNodes_subset_keptChildren (leftOut : Option Nat) {c : SceneNode R}
    {cs : List (SceneNode R)} (hc : c ∈ cs) (hne : some c.id ≠ leftOut) :
    ∀ d ∈ keptNodes leftOut c, d ∈ keptChildren leftOut cs := by
  induction cs with
  | nil => cases hc
  | cons a as ih =>
    intro d hd
    rcases List.mem_cons.1 hc with rfl | h
    · simp only [keptChildren, if_pos hne]
      exact List.mem_append_left _ hd
    · have := ih h d hd
      simp only [keptChildren]
      split
      · exact List.mem_append_right _ this
      · exact this

theorem mem_keptNodes_of_kept (leftOut : Option Nat) {r d : SceneNode R}
    (h : Kept leftOut r d) : d ∈ keptNodes leftOut r := by
  induction h with
  | self r => cases r; simp [keptNodes]
  | step r c d hc hne _ ih =>
    cases r with
    | mk i b cs =>
      simp only [keptNodes]
      exact List.mem_cons_of_mem _ (keptNodes_subset_keptChildren leftOut hc hne d ih)

theorem kept_of_mem_keptNodes (leftOut : Option Nat) (r : SceneNode R) :
    ∀ d, d ∈ keptNodes leftOut r → Kept leftOut r d := by
  refine keptNodes.induct leftOut (fun r => ∀ d, d ∈ keptNodes leftOut r → Kept leftOut r d)
    (fun cs => ∀ d, d ∈ keptChildren leftOut cs →
      ∃ c, c ∈ cs ∧ some c.id ≠ leftOut ∧ Kept leftOut c d) ?_ ?_ ?_ ?_ r
  · intro i b cs ih d hd
    simp only [keptNodes, List.mem_cons] at hd
    rcases hd with rfl | hd
    · exact Kept.self _
    · obtain ⟨c, hc, hne, hk⟩ := ih d hd
      exact Kept.step _ c d hc hne hk
  · intro d hd
    simp [keptChildren] at hd
  · intro c cs hne ihc ihcs d hd
    simp only [keptChildren, if_pos hne, List.mem_append] at hd
    rcases hd with hd | hd
    · exact ⟨c, List.mem_cons_self _ _, hne, ihc d hd⟩
    · obtain ⟨c2, hc2, hne2, hk⟩ := ihcs d hd
      exact ⟨c2, List.mem_cons_of_mem _ hc2, hne2, hk⟩
  · intro c cs hne ihcs d hd
    simp only [keptChildren, if_neg hne] at hd
    obtain ⟨c2, hc2, hne2, hk⟩ := ihcs d hd
    exact ⟨c2, List.mem_cons_of_mem _ hc2, hne2, hk⟩

theorem mem_keptNodes_iff (leftOut : Option Nat) (r d : SceneNode R) :
    d ∈ keptNodes leftOut r ↔ Kept leftOut r d :=
  ⟨kept_of_mem_keptNodes leftOut r d, mem_keptNodes_of_kept leftOut⟩

theorem kept_none_of_kept {leftOut : Option Nat} {r d : SceneNode R} (h : Kept leftOut r d) :
    Kept none r d := by
  induction h with
  | self r => exact Kept.self r
  | step r c d hc _ _ ih => exact Kept.step r c d hc (by simp) ih

theorem keptChildren_root_address (a : Nat) (r : SceneNode R) :
    a ∉ addressesOfList r.children → keptNodes (some a) r = keptNodes none r := by
  refine SceneNode.addresses.induct
    (fun r => a ∉ addressesOfList r.children → keptNodes (some a) r = keptNodes none r)
    (fun cs => a ∉ addressesOfList cs → keptChildren (some a) cs = keptChildren none cs)
    ?_ ?_ ?_ r
  · intro i b cs ih h
    simp only [SceneNode.children] at h
    simp only [keptNodes, ih h]
  · intro _
    simp [keptChildren]
  · intro c cs ihc ihcs h
    cases c with
    | mk i b ds =>
      simp only [addressesOfList, SceneNode.addresses, List.mem_append, List.mem_cons,
        not_or] at h
      obtain ⟨⟨hi, hds⟩, hcs⟩ := h
      have h1 : some (SceneNode.mk i b ds).id ≠ some a := by
        simp only [SceneNode.id, ne_eq, Option.some.injEq]
        exact fun e => hi e.symm
      have h2 : some (SceneNode.mk i b ds).id ≠ (none : Option Nat) := by simp
      simp only [keptChildren, if_pos h1, if_pos h2, ihc hds, ihcs hcs]

end KeptNodes

section Traversal

variable {R : Type} [LinearOrder R]

theorem mergeAll_nil (b : AxisAlignedBox R) : mergeAll b [] = b := rfl

theorem mergeAll_cons (b : AxisAlignedBox R) (n : SceneNode R) (ns : List (SceneNode R)) :
    mergeAll b (n :: ns) = mergeAll (b.merge n._getWorldAABB) ns := rfl

theorem mergeAll_append (b : AxisAlignedBox R) (l₁ l₂ : List (SceneNode R)) :
    mergeAll b (l₁ ++ l₂) = mergeAll (mergeAll b l₁) l₂ := by
  simp [mergeAll, List.foldl_append]

theorem mergeAll_perm {l₁ l₂ : List (SceneNode R)} (p : l₁.Perm l₂) (b : AxisAlignedBox R) :
    mergeAll b l₁ = mergeAll b l₂ := by
  haveI : RightCommutative (fun (acc : AxisAlignedBox R) (n : SceneNode R) =>
      acc.merge n._getWorldAABB) := ⟨fun a x y => AxisAlignedBox.merge_right_comm a _ _⟩
  exact p.foldl_eq b

theorem contains_mergeAll_start (b : AxisAlignedBox R) (l : List (SceneNode R)) :
    (mergeAll b l).contains b := by
  induction l generalizing b with
  | nil => exact AxisAlignedBox.contains_refl b
  | cons n ns ih =>
    rw [mergeAll_cons]
    exact AxisAlignedBox.contains_trans (ih _) (AxisAlignedBox.contains_merge_left b _)

theorem contains_mergeAll_mem (b : AxisAlignedBox R) {l : List (SceneNode R)} {n : SceneNode R}
    (h : n ∈ l) : (mergeAll b l).contains n._getWorldAABB := by
  induction l generalizing b with
  | nil => cases h
  | cons m ms ih =>
    rw [mergeAll_cons]
    rcases List.mem_cons.1 h with rfl | h
    · exact AxisAlignedBox.contains_trans (contains_mergeAll_start _ ms)
        (AxisAlignedBox.contains_merge_right b _)
    · exact ih _ h

theorem contains_of_bounds {c b : AxisAlignedBox R} {l : List (SceneNode R)}
    (hb : c.contains b) (hl : ∀ n ∈ l, c.contains n._getWorldAABB) :
    c.contains (mergeAll b l) := by
  induction l generalizing b with
  | nil => exact hb
  | cons m ms ih =>
    rw [mergeAll_cons]
    exact ih (AxisAlignedBox.contains_merge hb (hl m (List.mem_cons_self _ _)))
      (fun n hn => hl n (List.mem_cons_of_mem _ hn))

theorem mergeAll_contains_of_subset {b₁ b₂ : AxisAlignedBox R} {l₁ l₂ : List (SceneNode R)}
    (hb : b₂.contains b₁) (hl : ∀ n ∈ l₁, n ∈ l₂) :
    (mergeAll b₂ l₂).contains (mergeAll b₁ l₁) :=
  contains_of_bounds (AxisAlignedBox.contains_trans (contains_mergeAll_start b₂ l₂) hb)
    (fun n hn => contains_mergeAll_mem b₂ (hl n hn))

theorem mergeAll_eq_of_same_members {l₁ l₂ : List (SceneNode R)} (b : AxisAlignedBox R)
    (h : ∀ n, n ∈ l₁ ↔ n ∈ l₂) : mergeAll b l₁ = mergeAll b l₂ :=
  AxisAlignedBox.contains_antisymm
    (mergeAll_contains_of_subset (AxisAlignedBox.contains_refl b) (fun n hn => (h n).2 hn))
    (mergeAll_contains_of_subset (AxisAlignedBox.contains_refl b) (fun n hn => (h n).1 hn))

theorem traverse_eq_mergeAll (leftOut : Option Nat) (nodes : List (SceneNode R))
    (bbox : AxisAlignedBox R) :
    traverse leftOut nodes bbox = mergeAll bbox (keptStack leftOut nodes) := by
  refine traverse.induct leftOut
    (fun nodes bbox => traverse leftOut nodes bbox = mergeAll bbox (keptStack leftOut nodes))
    ?_ ?_ nodes bbox
  · intro bbox
    simp [traverse, keptStack, mergeAll]
  · intro node nodes bbox ih
    show traverse leftOut (node :: nodes) bbox = _
    rw [traverse, ih, mergeAll_perm (keptStack_pushChildren leftOut node.children nodes)]
    cases node with
    | mk i b cs =>
      simp only [SceneNode.children, SceneNode._getWorldAABB, keptStack, keptNodes,
        List.cons_append, mergeAll_cons]

theorem getWorldBoundingBox_eq (root : SceneNode R) (leftOut : Option Nat) :
    getWorldBoundingBox root leftOut = mergeAll .null (keptNodes leftOut root) := by
  unfold getWorldBoundingBox
  rw [traverse_eq_mergeAll]
  cases root with
  | mk i b cs =>
    simp only [keptStack, keptNodes, List.append_nil, SceneNode._getWorldAABB, mergeAll_cons,
      AxisAlignedBox.merge_idem, AxisAlignedBox.merge_null_left]

end Traversal

section UpdateMap

theorem FieldKey.lt_iff_lex (a b : FieldKey) :
    FieldKey.lt a b ↔ toLex (a.1.toList, a.2.toList) < toLex (b.1.toList, b.2.toList) := by
  rw [Prod.Lex.lt_iff]
  unfold FieldKey.lt strLt
  constructor
  · rintro (h | ⟨h1, h2⟩)
    · exact Or.inl h
    · rcases lt_or_eq_of_le (not_lt.1 h1) with h | h
      · exact Or.inl h
      · exact Or.inr ⟨h, h2⟩
  · rintro (h | ⟨h1, h2⟩)
    · exact Or.inl h
    · exact Or.inr ⟨by simp only [] at h1; rw [h1]; exact lt_irrefl _, h2⟩

theorem keyLt_irrefl (a : FieldKey) : ¬ FieldKey.lt a a := by
  rw [FieldKey.lt_iff_lex]; exact lt_irrefl _

theorem keyLt_trans {a b c : FieldKey} (hab : FieldKey.lt a b) (hbc : FieldKey.lt b c) :
    FieldKey.lt a c := by
  rw [FieldKey.lt_iff_lex] at *; exact lt_trans hab hbc

theorem keyLt_ne {a b : FieldKey} (hab : FieldKey.lt a b) : a ≠ b := by
  rintro rfl; exact keyLt_irrefl a hab

theorem keyLt_equiv {a b : FieldKey} (h1 : ¬ FieldKey.lt a b) (h2 : ¬ FieldKey.lt b a) :
    a = b := by
  rw [FieldKey.lt_iff_lex] at h1 h2
  have h := le_antisymm (not_lt.1 h2) (not_lt.1 h1)
  have h3 : (a.1.toList, a.2.toList) = (b.1.toList, b.2.toList) := toLex.injective h
  obtain ⟨a1, a2⟩ := a
  obtain ⟨b1, b2⟩ := b
  simp only [Prod.mk.injEq] at h3 ⊢
  exact ⟨String.ext h3.1, String.ext h3.2⟩

/-- Entries of a map with a given key. -/
theorem filter_key_eq_nil {k : FieldKey} {m : List (FieldKey × String)}
    (h : ∀ w ∈ m, w.1 ≠ k) : m.filter (fun w => decide (w.1 = k)) = [] := by
  rw [List.filter_eq_nil_iff]
  intro w hw
  simpa using h w hw

theorem mem_mapAssign {key : FieldKey} {value : String} {m : List (FieldKey × String)}
    {w : FieldKey × String} (h : w ∈ mapAssign key value m) : w = (key, value) ∨ w ∈ m := by
  induction m with
  | nil => simp [mapAssign] at h; exact Or.inl h
  | cons a rest ih =>
    obtain ⟨k, v⟩ := a
    simp only [mapAssign] at h
    split at h
    · rcases List.mem_cons.1 h with h | h
      · exact Or.inl h
      · exact Or.inr h
    · split at h
      · rcases List.mem_cons.1 h with h | h
        · exact Or.inr (h ▸ List.mem_cons_self _ _)
        · rcases ih h with h | h
          · exact Or.inl h
          · exact Or.inr (List.mem_cons_of_mem _ h)
      · rename_i h1 h2
        rcases List.mem_cons.1 h with h | h
        · have : k = key := keyLt_equiv h2 h1
          exact Or.inl (by rw [h, this])
        · exact Or.inr (List.mem_cons_of_mem _ h)

theorem mapAssign_ordered (key : FieldKey) (value : String) {m : List (FieldKey × String)}
    (hm : mapOrdered m) : mapOrdered (mapAssign key value m) := by
  unfold mapOrdered at *
  induction m with
  | nil => simp [mapAssign]
  | cons a rest ih =>
    obtain ⟨k, v⟩ := a
    rw [List.pairwise_cons] at hm
    simp only [mapAssign]
    split
    · rename_i h1
      refine List.pairwise_cons.2 ⟨?_, List.pairwise_cons.2 hm⟩
      intro w hw
      rcases List.mem_cons.1 hw with rfl | hw
      · exact h1
      · exact keyLt_trans h1 (hm.1 w hw)
    · split
      · rename_i h1 h2
        refine List.pairwise_cons.2 ⟨?_, ih hm.2⟩
        intro w hw
        rcases mem_mapAssign hw with rfl | hw
        · exact h2
        · exact hm.1 w hw
      · exact List.pairwise_cons.2 ⟨hm.1, hm.2⟩

theorem filter_key_mapAssign_self (key : FieldKey) (value : String)
    {m : List (FieldKey × String)} (hm : mapOrdered m) :
    (mapAssign key value m).filter (fun w => decide (w.1 = key)) = [(key, value)] := by
  unfold mapOrdered at hm
  induction m with
  | nil => simp [mapAssign]
  | cons a rest ih =>
    obtain ⟨k, v⟩ := a
    rw [List.pairwise_cons] at hm
    simp only [mapAssign]
    split
    · rename_i h1
      have hk : k ≠ key := (keyLt_ne h1).symm
      have hrest : ∀ w ∈ rest, w.1 ≠ key :=
        fun w hw => (keyLt_ne (keyLt_trans h1 (hm.1 w hw))).symm
      simp [List.filter_cons, hk, filter_key_eq_nil hrest]
    · split
      · rename_i h1 h2
        have hk : k ≠ key := keyLt_ne h2
        simp [List.filter_cons, hk, ih hm.2]
      · rename_i h1 h2
        have hk : k = key := keyLt_equiv h2 h1
        have hrest : ∀ w ∈ rest, w.1 ≠ key :=
          fun w hw => hk ▸ (keyLt_ne (hm.1 w hw)).symm
        simp [List.filter_cons, hk, filter_key_eq_nil hrest]

theorem filter_key_mapAssign_other {key k2 : FieldKey} (value : String)
    (m : List (FieldKey × String)) (hne : k2 ≠ key) :
    (mapAssign key value m).filter (fun w => decide (w.1 = k2)) =
      m.filter (fun w => decide (w.1 = k2)) := by
  induction m with
  | nil => simp [mapAssign, List.filter_cons, hne.symm]
  | cons a rest ih =>
    obtain ⟨k, v⟩ := a
    simp only [mapAssign]
    split
    · simp [List.filter_cons, hne.symm]
    · split
      · simp [List.filter_cons, ih]
      · rename_i h1 h2
        have hk : k = key := keyLt_equiv h2 h1
        simp [List.filter_cons, hk, hne.symm]

theorem mapOrdered_nodup {m : List (FieldKey × String)} (h : mapOrdered m) :
    (m.map Prod.fst).Nodup := by
  unfold mapOrdered at h
  rw [List.Nodup, List.pairwise_map]
  exact h.imp (fun hab => keyLt_ne hab)

theorem filter_le_append_filter_gt (k : FieldKey) {m : List (FieldKey × String)}
    (hm : mapOrdered m) :
    m.filter (fun w => decide (¬ FieldKey.lt k w.1)) ++
      m.filter (fun w => decide (FieldKey.lt k w.1)) = m := by
  unfold mapOrdered at hm
  induction m with
  | nil => rfl
  | cons a rest ih =>
    rw [List.pairwise_cons] at hm
    by_cases ha : FieldKey.lt k a.1
    · have hrest : ∀ w ∈ rest, FieldKey.lt k w.1 := fun w hw => keyLt_trans ha (hm.1 w hw)
      have h1 : rest.filter (fun w => decide (¬ FieldKey.lt k w.1)) = [] := by
        rw [List.filter_eq_nil_iff]
        intro w hw
        simpa using hrest w hw
      have h2 : rest.filter (fun w => decide (FieldKey.lt k w.1)) = rest := by
        rw [List.filter_eq_self]
        intro w hw
        simpa using hrest w hw
      simp only [List.filter_cons, ha, not_true_eq_false, decide_False, decide_True,
        Bool.false_eq_true, if_false, if_true, h1, h2, List.nil_append]
    · simp only [List.filter_cons, ha, not_false_eq_true, decide_True, decide_False, if_true,
        List.cons_append]
      simp only [Bool.false_eq_true, if_false]
      rw [ih hm.2]

end UpdateMap

section Flush

variable {σ ν : Type}

theorem setNodeAttribute_buffered_ok {E : Externals σ ν} {s t : State σ} {n f v : String}
    (h : setNodeAttribute E s n f v true = .ok t) :
    s._updateMutex = false ∧ t._updateMutex = false ∧
      t._updates = mapAssign (n, f) v s._updates := by
  simp only [setNodeAttribute, if_true] at h
  split at h
  · cases h
  · rename_i hm
    cases h
    simp only [Bool.not_eq_true] at hm
    exact ⟨hm, hm, rfl⟩

theorem setNodeAttribute_immediate_ne_blocked (E : Externals σ ν) (s : State σ)
    (n f v : String) : setNodeAttribute E s n f v false ≠ .blocked := by
  simp only [setNodeAttribute, Bool.false_eq_true, if_false]
  split
  · simp
  · split
    · simp
    · split <;> simp

theorem withScene_updates (s : State σ) (sc : σ) : (s.withScene sc)._updates = s._updates := by
  unfold State.withScene; split <;> rfl

theorem setNodeAttribute_immediate_updates {E : Externals σ ν} {s s2 : State σ}
    {n f v : String} (h : setNodeAttribute E s n f v false = .ok s2) :
    s2._updates = s._updates := by
  simp only [setNodeAttribute, Bool.false_eq_true, if_false] at h
  split at h
  · cases h
  · split at h
    · cases h
    · split at h
      · cases h
      · cases h; exact withScene_updates _ _

theorem setNodeAttribute_immediate_error_congr (E : Externals σ ν) {s t : State σ}
    (h1 : t._rootNode = s._rootNode) (h2 : t.x3d_scene = s.x3d_scene) (n f v : String)
    (e : Failure) :
    setNodeAttribute E t n f v false = .error e ↔ setNodeAttribute E s n f v false = .error e := by
  have hs : scene t = scene s := by simp only [scene, h1, h2]
  simp only [setNodeAttribute, Bool.false_eq_true, if_false, hs]
  split
  · exact Iff.rfl
  · split
    · exact Iff.rfl
    · split
      · exact Iff.rfl
      · simp

theorem leftLocked_rootNode (s : State σ) : s.leftLocked._rootNode = s._rootNode := by
  unfold State.leftLocked; split <;> rfl

theorem leftLocked_x3d_scene (s : State σ) : s.leftLocked.x3d_scene = s.x3d_scene := by
  unfold State.leftLocked; split <;> rfl

theorem leftLocked_updates (s : State σ) : s.leftLocked._updates = s._updates := by
  unfold State.leftLocked; split <;> rfl

theorem applyUpdates_updates (E : Externals σ ν) (m : List (FieldKey × String)) (s : State σ) :
    (applyUpdates E m s).state._updates = s._updates := by
  induction m generalizing s with
  | nil => rfl
  | cons up rest ih =>
    simp only [applyUpdates]
    split
    · rfl
    · rfl
    · rename_i s2 h
      simp only [ih s2]
      exact setNodeAttribute_immediate_updates h

theorem applyUpdates_ne_blocked (E : Externals σ ν) (m : List (FieldKey × String))
    (s : State σ) : (applyUpdates E m s).ended ≠ .blocked := by
  induction m generalizing s with
  | nil => simp [applyUpdates]
  | cons up rest ih =>
    simp only [applyUpdates]
    split
    · simp
    · rename_i h
      exact absurd h (setNodeAttribute_immediate_ne_blocked E s _ _ _)
    · rename_i s2 h
      exact ih s2

theorem applyUpdates_of_writesSucceed (E : Externals σ ν) (m : List (FieldKey × String))
    (s : State σ) (h : writesSucceed E m s) :
    (applyUpdates E m s).ended = .ok () ∧ (applyUpdates E m s).written = m := by
  induction m generalizing s with
  | nil => exact ⟨rfl, rfl⟩
  | cons up rest ih =>
    obtain ⟨s2, h1, h2⟩ := h
    simp only [applyUpdates, h1]
    exact ⟨(ih s2 h2).1, by rw [(ih s2 h2).2]⟩

theorem applyUpdates_raised (E : Externals σ ν) (m : List (FieldKey × String)) (s : State σ)
    (e : Failure) (h : (applyUpdates E m s).ended = .error e) :
    ∃ before up after, m = before ++ up :: after ∧ (applyUpdates E m s).written = before ∧
      setNodeAttribute E (applyUpdates E m s).state up.1.1 up.1.2 up.2 false = .error e := by
  induction m generalizing s with
  | nil => cases h
  | cons up rest ih =>
    simp only [applyUpdates] at h ⊢
    split
    · rename_i e2 h1
      rw [h1] at h
      simp only [Outcome.error.injEq] at h
      subst h
      exact ⟨[], up, rest, rfl, rfl, h1⟩
    · rename_i h1
      rw [h1] at h
      cases h
    · rename_i s2 h1
      rw [h1] at h
      obtain ⟨before, u, after, hm, hw, hf⟩ := ih s2 h
      exact ⟨up :: before, u, after, by rw [hm]; rfl, by rw [hw], hf⟩

theorem applyUpdates_written_isPrefix (E : Externals σ ν) (m : List (FieldKey × String))
    (s : State σ) : (applyUpdates E m s).written <+: m := by
  induction m generalizing s with
  | nil => exact List.prefix_refl _
  | cons up rest ih =>
    simp only [applyUpdates]
    split
    · exact List.nil_prefix
    · exact List.nil_prefix
    · rename_i s2 h1
      exact (List.prefix_cons_inj up).2 (ih s2)

/-- The writes of the entries `before` all succeed exactly when the loop over `before ++ after`
carries out at least as many writes as `before` has entries. -/
theorem writesSucceed_iff_length_le (E : Externals σ ν) (before after : List (FieldKey × String))
    (s : State σ) :
    writesSucceed E before s ↔
      before.length ≤ (applyUpdates E (before ++ after) s).written.length := by
  induction before generalizing s with
  | nil => simp [writesSucceed]
  | cons up rest ih =>
    simp only [List.cons_append, applyUpdates, writesSucceed]
    split
    · rename_i e h1
      simp [h1]
    · rename_i h1
      simp [h1]
    · rename_i s2 h1
      simp only [h1, Outcome.ok.injEq, exists_eq_left', List.length_cons,
        Nat.add_le_add_iff_right]
      exact ih s2

theorem frameStarted_held (E : Externals σ ν) (s : State σ) (h : s._updateMutex = true) :
    (frameStarted E s).written = [] ∧ (frameStarted E s).state = s ∧
      (frameStarted E s).result = .blocked := by
  simp [frameStarted, h]

theorem frameStarted_written (E : Externals σ ν) (s : State σ) (h : s._updateMutex = false) :
    (frameStarted E s).written = (applyUpdates E s._updates s).written := by
  simp only [frameStarted, h, Bool.false_eq_true, if_false]
  split <;> rfl

theorem frameStarted_written_isPrefix (E : Externals σ ν) (s : State σ) :
    (frameStarted E s).written <+: s._updates := by
  cases h : s._updateMutex with
  | true => rw [(frameStarted_held E s h).1]; exact List.nil_prefix
  | false => rw [frameStarted_written E s h]; exact applyUpdates_written_isPrefix E _ _

theorem frameStarted_ok_iff (E : Externals σ ν) (s : State σ) :
    (frameStarted E s).result = .ok true ↔
      s._updateMutex = false ∧ (applyUpdates E s._updates s).ended = .ok () := by
  cases h : s._updateMutex with
  | true => simp [(frameStarted_held E s h).2.2]
  | false =>
    simp only [frameStarted, h, Bool.false_eq_true, if_false, true_and]
    split
    · rename_i e h2; simp [h2]
    · rename_i h2; simp [h2]
    · rename_i h2; simp [h2]

theorem frameStarted_error_iff (E : Externals σ ν) (s : State σ) (e : Failure) :
    (frameStarted E s).result = .error e ↔
      s._updateMutex = false ∧ (applyUpdates E s._updates s).ended = .error e := by
  cases h : s._updateMutex with
  | true => simp [(frameStarted_held E s h).2.2]
  | false =>
    simp only [frameStarted, h, Bool.false_eq_true, if_false, true_and]
    split
    · rename_i e2 h2; simp [h2]
    · rename_i h2; simp [h2]
    · rename_i h2; simp [h2]

theorem frameStarted_error_state (E : Externals σ ν) (s : State σ) (e : Failure)
    (h : (frameStarted E s).result = .error e) :
    (frameStarted E s).state = (applyUpdates E s._updates s).state.leftLocked := by
  obtain ⟨hm, he⟩ := (frameStarted_error_iff E s e).1 h
  simp only [frameStarted, hm, Bool.false_eq_true, if_false, he]

end Flush

section Lifecycle

variable {σ ν : Type}

theorem clearWorld_unbound_raises {s : State σ} {r : Nat} (hr : s._rootNode = some r)
    (hs : s.x3d_scene r = none) : clearWorld s = .error badAnyCast := by
  simp [clearWorld, scene, hr, hs]

theorem clearWorld_bound {s : State σ} {r : Nat} {sc : σ} (hr : s._rootNode = some r)
    (hs : s.x3d_scene r = some sc) :
    ∃ t, clearWorld s = .ok t ∧ t._rootNode = some r ∧ t.x3d_scene r = none ∧
      t.init = s.init := by
  refine ⟨{ s with x3d_scene := Function.update s.x3d_scene r none,
                   x3dLocations := s.x3dLocations.filter (fun l => l ≠ s._basePath) },
    by simp [clearWorld, scene, hr, hs], hr, by simp, rfl⟩

theorem loadURLBegin_ok {E : Externals σ ν} {s s2 : State σ} {url : String} {rootNode : Nat}
    (h : loadURLBegin E s url rootNode = (s2, none)) :
    s2._rootNode = some rootNode ∧ s2.init = false := by
  unfold loadURLBegin at h
  split at h
  · cases h
  · rename_i s1 h1
    have hinit : s1.init = false := by
      split at h1
      · split at h1
        · cases h1
        · cases h1; rfl
      · rename_i hi
        cases h1
        simpa using hi
    simp only at h
    split at h
    · cases h
    · cases h
      constructor
      · rfl
      · show (if _ then _ else s1).init = false
        split
        · exact hinit
        · exact hinit

end Lifecycle

section Helpers

variable {σ ν : Type}

theorem eq_singleton_of_prefix_of_mem {α : Type} {l : List α} {a : α} (h : l <+: [a])
    (ha : a ∈ l) : l = [a] := by
  obtain ⟨t, ht⟩ := h
  cases l with
  | nil => cases ha
  | cons x xs =>
    simp only [List.cons_append, List.cons.injEq, List.append_eq_nil] at ht
    rw [ht.1, ht.2.1]

/-- With the mutex free and every immediate write of the loop succeeding, `frameStarted` carries
out exactly the pending entries, one per key, empties the pending map, releases the mutex and
returns `true`. -/
theorem frameStarted_of_writesSucceed (E : Externals σ ν) (s : State σ)
    (h : mapOrdered s._updates) (hm : s._updateMutex = false)
    (hw : writesSucceed E s._updates s) :
    (frameStarted E s).written = s._updates ∧
    ((frameStarted E s).written.map Prod.fst).Nodup ∧
    (frameStarted E s).state._updates = [] ∧
    (frameStarted E s).state._updateMutex = false ∧
    (frameStarted E s).result = .ok true := by
  have hr := applyUpdates_of_writesSucceed E _ _ hw
  have hwr : (frameStarted E s).written = s._updates := by
    rw [frameStarted_written E s hm, hr.2]
  refine ⟨hwr, by rw [hwr]; exact mapOrdered_nodup h, ?_, ?_,
    (frameStarted_ok_iff E s).2 ⟨hm, hr.1⟩⟩
  · simp only [frameStarted, hm, Bool.false_eq_true, if_false, hr.1]
  · simp only [frameStarted, hm, Bool.false_eq_true, if_false, hr.1]

/-- When the pending map results from two buffered writes to distinct keys, the mutex is free,
and every immediate write succeeds, `frameStarted` applies each of the two exactly once. -/
theorem frameStarted_two_buffered_writes (E : Externals σ ν) (s0 s1 s : State σ)
    (n1 f1 v1 n2 f2 v2 : String) (h0 : mapOrdered s0._updates) (hne : (n1, f1) ≠ (n2, f2))
    (e1 : setNodeAttribute E s0 n1 f1 v1 true = .ok s1)
    (e2 : setNodeAttribute E s1 n2 f2 v2 true = .ok s)
    (hw : writesSucceed E s._updates s) :
    (frameStarted E s).written.filter (fun w => decide (w.1 = (n1, f1))) = [((n1, f1), v1)] ∧
    (frameStarted E s).written.filter (fun w => decide (w.1 = (n2, f2))) = [((n2, f2), v2)] := by
  obtain ⟨_, _, u1⟩ := setNodeAttribute_buffered_ok e1
  obtain ⟨_, m2, u2⟩ := setNodeAttribute_buffered_ok e2
  have ho1 : mapOrdered s1._updates := by rw [u1]; exact mapAssign_ordered _ _ h0
  have ho2 : mapOrdered s._updates := by rw [u2]; exact mapAssign_ordered _ _ ho1
  rw [(frameStarted_of_writesSucceed E s ho2 m2 hw).1, u2]
  refine ⟨?_, filter_key_mapAssign_self _ _ ho1⟩
  rw [filter_key_mapAssign_other v2 _ hne, u1, filter_key_mapAssign_self _ _ h0]

end Helpers

/-! ### The claims -/

/-- C1, as stated, fails: with an entry for the unknown node `"a"` pending, two buffered writes
to `("b", "f")` are followed by a `frameStarted` that raises at `("a", "x")` and never reaches
the write for `("b", "f")`. -/
theorem buffered_overwrite_unapplied_after_failure :
    ∃ s1 s2,
      setNodeAttribute (tableExternals none) (boundState [(("a", "x"), "1")]) "b" "f" "1" true
        = .ok s1 ∧
      setNodeAttribute (tableExternals none) s1 "b" "f" "2" true = .ok s2 ∧
      (frameStarted (tableExternals none) s2).result = .error (.otherException "NotFound") ∧
      (frameStarted (tableExternals none) s2).written.filter
        (fun w => decide (w.1 = ("b", "f"))) = [] :=
  ⟨_, _, rfl, rfl, rfl, by decide⟩

/-- C1, amended: when `setNodeAttribute(n, f, v1, true)` and then `setNodeAttribute(n, f, v2,
true)` have returned, the pending map holds one entry for the key `(n, f)`, with value `v2`;
the next `frameStarted` applies no write for `(n, f)` with another value than `v2`, applies
at most one write for `(n, f)`, and applies the write of `v2`, exactly once, if and only if
the immediate write of every pending entry ordered at or before `(n, f)` succeeds. -/
theorem buffered_overwrite_last_write_wins {σ ν : Type} (E : Externals σ ν) (s s1 s2 : State σ)
    (n f v1 v2 : String) (h : mapOrdered s._updates)
    (e1 : setNodeAttribute E s n f v1 true = .ok s1)
    (e2 : setNodeAttribute E s1 n f v2 true = .ok s2) :
    s2._updates.filter (fun w => decide (w.1 = (n, f))) = [((n, f), v2)] ∧
    (∀ w ∈ (frameStarted E s2).written, w.1 = (n, f) → w.2 = v2) ∧
    ((frameStarted E s2).written.filter (fun w => decide (w.1 = (n, f)))).length ≤ 1 ∧
    ((frameStarted E s2).written.filter (fun w => decide (w.1 = (n, f))) = [((n, f), v2)] ↔
      writesSucceed E (s2._updates.filter (fun w => decide (¬ FieldKey.lt (n, f) w.1))) s2) := by
  obtain ⟨_, _, u1⟩ := setNodeAttribute_buffered_ok e1
  obtain ⟨_, m2, u2⟩ := setNodeAttribute_buffered_ok e2
  have ho1 : mapOrdered s1._updates := by rw [u1]; exact mapAssign_ordered _ _ h
  have ho2 : mapOrdered s2._updates := by rw [u2]; exact mapAssign_ordered _ _ ho1
  have hf : s2._updates.filter (fun w => decide (w.1 = (n, f))) = [((n, f), v2)] := by
    rw [u2]; exact filter_key_mapAssign_self _ _ ho1
  have hp := frameStarted_written_isPrefix E s2
  have hpf : (frameStarted E s2).written.filter (fun w => decide (w.1 = (n, f)))
      <+: [((n, f), v2)] := by
    rw [← hf]; exact hp.filter _
  refine ⟨hf, ?_, hpf.length_le, ?_⟩
  · intro w hw hk
    have hmem := hpf.subset (List.mem_filter.2 ⟨hw, by simpa using hk⟩)
    rw [List.mem_singleton.1 hmem]
  · have hsplit := filter_le_append_filter_gt (n, f) ho2
    have hpre : s2._updates.filter (fun w => decide (¬ FieldKey.lt (n, f) w.1))
        <+: s2._updates := ⟨_, hsplit⟩
    have hlen := writesSucceed_iff_length_le E
      (s2._updates.filter (fun w => decide (¬ FieldKey.lt (n, f) w.1)))
      (s2._updates.filter (fun w => decide (FieldKey.lt (n, f) w.1))) s2
    rw [hsplit, ← frameStarted_written E s2 m2] at hlen
    have hin0 : ((n, f), v2) ∈ s2._updates :=
      (List.mem_filter.1 (hf ▸ List.mem_singleton_self ((n, f), v2))).1
    have hmem : ((n, f), v2) ∈
        s2._updates.filter (fun w => decide (¬ FieldKey.lt (n, f) w.1)) :=
      List.mem_filter.2 ⟨hin0, by simpa using keyLt_irrefl (n, f)⟩
    rw [hlen]
    constructor
    · intro hfw
      by_contra hlt
      have hwp := List.prefix_of_prefix_length_le hp hpre (le_of_lt (not_le.1 hlt))
      obtain ⟨rest, hrest⟩ := hwp
      have hne : rest ≠ [] := by
        rintro rfl
        rw [List.append_nil] at hrest
        rw [hrest] at hlt
        exact hlt (le_refl _)
      obtain ⟨b, hb⟩ := List.exists_mem_of_ne_nil rest hne
      have hbpre : b ∈ s2._updates.filter (fun w => decide (¬ FieldKey.lt (n, f) w.1)) := by
        rw [← hrest]; exact List.mem_append_right _ hb
      have hble : ¬ FieldKey.lt (n, f) b.1 := by simpa using (List.mem_filter.1 hbpre).2
      have hin : ((n, f), v2) ∈ (frameStarted E s2).written :=
        (List.mem_filter.1 (hfw ▸ List.mem_singleton_self ((n, f), v2))).1
      have hord : ((frameStarted E s2).written ++ rest).Pairwise
          (fun a b => FieldKey.lt a.1 b.1) := by
        rw [hrest]; exact List.Pairwise.sublist hpre.sublist ho2
      exact hble ((List.pairwise_append.1 hord).2.2 _ hin _ hb)
    · intro hs
      have hpw := List.prefix_of_prefix_length_le hpre hp hs
      exact eq_singleton_of_prefix_of_mem hpf
        (List.mem_filter.2 ⟨hpw.subset hmem, by simp⟩)

/-- Witness of C1, amended: with an entry for the unknown node `"c"` pending, the two buffered
writes to `("b", "f")` are followed by a `frameStarted` that writes `"2"` to `("b", "f")` once
and then raises at `("c", "x")`. -/
theorem buffered_overwrite_last_write_wins_witness :
    mapOrdered (boundState [(("c", "x"), "9")])._updates ∧
    ∃ s1 s2,
      setNodeAttribute (tableExternals none) (boundState [(("c", "x"), "9")]) "b" "f" "1" true
        = .ok s1 ∧
      setNodeAttribute (tableExternals none) s1 "b" "f" "2" true = .ok s2 ∧
      (frameStarted (tableExternals none) s2).result = .error (.otherException "NotFound") ∧
      (frameStarted (tableExternals none) s2).written.filter
        (fun w => decide (w.1 = ("b", "f"))) = [(("b", "f"), "2")] ∧
      (∀ w ∈ (frameStarted (tableExternals none) s2).written, w.1 = ("b", "f") → w.2 = "2") :=
  ⟨by decide, _, _, rfl, rfl, rfl,
    ((buffered_overwrite_last_write_wins (tableExternals none)
      (boundState [(("c", "x"), "9")]) _ _ "b" "f" "1" "2" (by decide) rfl rfl).2.2.2).2
        ⟨_, rfl, trivial⟩,
    (buffered_overwrite_last_write_wins (tableExternals none)
      (boundState [(("c", "x"), "9")]) _ _ "b" "f" "1" "2" (by decide) rfl rfl).2.1⟩

/-- C2, at the failing input: a `frameStarted` whose write fails leaves the mutex held; after
`loadURL` has bound a scene on which the write of the pending entry succeeds, the pending map
is in order and every immediate write would succeed, yet the next `frameStarted` waits for the
mutex for ever: it carries out no write and the entry stays pending. -/
theorem frameStarted_blocks_after_raising_frame :
    (frameStarted (tableExternals none) (boundStateWith [] [(("b", "f"), "2")])).result
      = .error (.otherException "NotFound") ∧
    afterRaisingFrame._updateMutex = true ∧
    (loadURL (tableExternals none) afterRaisingFrame "models/scene.x3d" 1).2 = none ∧
    mapOrdered reloadedAfterRaisingFrame._updates ∧
    writesSucceed (tableExternals none) reloadedAfterRaisingFrame._updates
      reloadedAfterRaisingFrame ∧
    (frameStarted (tableExternals none) reloadedAfterRaisingFrame).result = .blocked ∧
    (frameStarted (tableExternals none) reloadedAfterRaisingFrame).written = [] ∧
    (frameStarted (tableExternals none) reloadedAfterRaisingFrame).state._updates
      = [(("b", "f"), "2")] :=
  ⟨rfl, by decide, by decide, by decide, ⟨_, rfl, trivial⟩, rfl, by decide, by decide⟩

/-- C3, as stated, fails: with the entries `("a", "x")` (unknown node) and `("b", "f")` pending,
`frameStarted` raises at the first one and the write of `("b", "f")`, which succeeds when
made on its own, is not carried out. -/
theorem frameStarted_failure_blocks_later_entries :
    (frameStarted (tableExternals none)
      (boundState [(("a", "x"), "1"), (("b", "f"), "2")])).result
        = .error (.otherException "NotFound") ∧
    (∃ s2, setNodeAttribute (tableExternals none)
      (boundState [(("a", "x"), "1"), (("b", "f"), "2")]) "b" "f" "2" false = .ok s2) ∧
    (("b", "f"), "2") ∉ (frameStarted (tableExternals none)
      (boundState [(("a", "x"), "1"), (("b", "f"), "2")])).written :=
  ⟨rfl, ⟨_, rfl⟩, by decide⟩

/-- C3, amended: when the immediate write of an entry fails during `frameStarted`, the call ends
there with that failure: the entries before the failing one in key order have been applied,
the failing entry and the entries after it are not applied during that `frameStarted`. -/
theorem frameStarted_stops_at_first_failure {σ ν : Type} (E : Externals σ ν) (s : State σ)
    (e : Failure) (h : mapOrdered s._updates) (hf : (frameStarted E s).result = .error e) :
    ∃ before up after, s._updates = before ++ up :: after ∧
      (frameStarted E s).written = before ∧
      setNodeAttribute E (frameStarted E s).state up.1.1 up.1.2 up.2 false = .error e ∧
      ∀ w ∈ up :: after, w ∉ (frameStarted E s).written := by
  obtain ⟨hm, hr⟩ := (frameStarted_error_iff E s e).1 hf
  obtain ⟨before, up, after, hbe, hw, hfail⟩ := applyUpdates_raised E _ s e hr
  refine ⟨before, up, after, hbe, by rw [frameStarted_written E s hm, hw], ?_, ?_⟩
  · rw [frameStarted_error_state E s e hf]
    exact (setNodeAttribute_immediate_error_congr E (leftLocked_rootNode _)
      (leftLocked_x3d_scene _) _ _ _ e).2 hfail
  · intro w hw2 hmem
    rw [frameStarted_written E s hm, hw] at hmem
    have hnd : (s._updates).Nodup := (mapOrdered_nodup h).of_map _
    rw [hbe] at hnd
    exact (List.disjoint_of_nodup_append hnd) hmem hw2

/-- Witness of C3, amended: the pending entries `("a", "x")` and `("b", "f")`. -/
theorem frameStarted_stops_at_first_failure_witness :
    mapOrdered (boundState [(("a", "x"), "1"), (("b", "f"), "2")])._updates ∧
    ∃ before up after,
      (boundState [(("a", "x"), "1"), (("b", "f"), "2")])._updates = before ++ up :: after ∧
      (frameStarted (tableExternals none)
        (boundState [(("a", "x"), "1"), (("b", "f"), "2")])).written = before ∧
      setNodeAttribute (tableExternals none) (frameStarted (tableExternals none)
        (boundState [(("a", "x"), "1"), (("b", "f"), "2")])).state up.1.1 up.1.2 up.2 false
          = .error (.otherException "NotFound") ∧
      ∀ w ∈ up :: after, w ∉ (frameStarted (tableExternals none)
        (boundState [(("a", "x"), "1"), (("b", "f"), "2")])).written :=
  ⟨by decide,
    frameStarted_stops_at_first_failure (tableExternals none)
      (boundState [(("a", "x"), "1"), (("b", "f"), "2")]) (.otherException "NotFound")
      (by decide) rfl⟩

/-- C4, as stated, fails: when `initialiseAndFill` fails with an exception that is not an
`Ogre::Exception`, `loadURL` raises it with the loaded scene still bound to the root. -/
theorem loadURL_other_failure_keeps_scene :
    (tableExternals (some (.otherException "init"))).initialiseAndFill sampleScene
      = .error (.otherException "init") ∧
    (loadURL (tableExternals (some (.otherException "init"))) (State.fresh TableScene)
      "models/scene.x3d" 1).2 = some (.otherException "init") ∧
    (loadURL (tableExternals (some (.otherException "init"))) (State.fresh TableScene)
      "models/scene.x3d" 1).1.x3d_scene 1 = some sampleScene :=
  ⟨rfl, by decide, by decide⟩

/-- C4, amended: when `loadURL(url, rootNode)` reaches the post-load initialisation of the scene
`sc` that the loader bound to `rootNode`, and `initialiseAndFill` fails with an
`Ogre::Exception`, then `loadURL` raises that exception and leaves the manager unbound: no
scene is bound to `rootNode` and `init` is false. -/
theorem loadURL_ogre_failure_unbinds {σ ν : Type} (E : Externals σ ν) (s s2 : State σ)
    (url : String) (rootNode : Nat) (sc : σ) (d : String)
    (h1 : loadURLBegin E s url rootNode = (s2, none))
    (h2 : s2.x3d_scene rootNode = some sc)
    (h3 : E.initialiseAndFill sc = .error (.ogreException d)) :
    (loadURL E s url rootNode).2 = some (.ogreException d) ∧
    (loadURL E s url rootNode).1.x3d_scene rootNode = none ∧
    (loadURL E s url rootNode).1.init = false := by
  obtain ⟨hr, hi⟩ := loadURLBegin_ok h1
  obtain ⟨t, ht, _, hts, hti⟩ := clearWorld_bound hr h2
  have hend : loadURLEnd E s2 = (t, some (.ogreException d)) := by
    simp [loadURLEnd, initialiseWorld, scene, hr, h2, h3, ht]
  have hl : loadURL E s url rootNode = (t, some (.ogreException d)) := by
    simp only [loadURL, h1, hend]
  rw [hl]
  exact ⟨rfl, hts, by rw [hti, hi]⟩

/-- Witness of C4, amended: a first load whose initialisation raises an `Ogre::Exception`. -/
theorem loadURL_ogre_failure_unbinds_witness :
    (loadURL (tableExternals (some (.ogreException "init"))) (State.fresh TableScene)
      "models/scene.x3d" 1).2 = some (.ogreException "init") ∧
    (loadURL (tableExternals (some (.ogreException "init"))) (State.fresh TableScene)
      "models/scene.x3d" 1).1.x3d_scene 1 = none ∧
    (loadURL (tableExternals (some (.ogreException "init"))) (State.fresh TableScene)
      "models/scene.x3d" 1).1.init = false :=
  loadURL_ogre_failure_unbinds (tableExternals (some (.ogreException "init")))
    (State.fresh TableScene)
    (loadURLBegin (tableExternals (some (.ogreException "init"))) (State.fresh TableScene)
      "models/scene.x3d" 1).1
    "models/scene.x3d" 1 sampleScene "init" rfl (by decide) rfl

/-- C5, at the failing input: `clearWorld()` on a manager that never loaded anything reaches
`scene()`, which dereferences the null `_rootNode`. -/
theorem clearWorld_before_any_load_faults :
    clearWorld (State.fresh TableScene) = .error .nullDereference := rfl

/-- C8: with no pending update `frameStarted` carries out no write, leaves the state (pending
map, bound scenes and all) as it was, and returns `true`. -/
theorem frameStarted_empty {σ ν : Type} (E : Externals σ ν) (s : State σ)
    (h : s._updates = []) :
    (frameStarted E s).written = [] ∧ (frameStarted E s).state = s ∧
    (frameStarted E s).result = .ok true := by
  have hm : s._updateMutex = false := by
    cases hmx : s._updateMutex with
    | false => rfl
    | true => exact absurd h (s.heldPending hmx)
  cases s
  simp only at h hm
  subst h hm
  simp [frameStarted, applyUpdates]

/-- Witness of C8: a bound manager with nothing pending. -/
theorem frameStarted_empty_witness :
    (boundState [])._updates = [] ∧
    (frameStarted (tableExternals none) (boundState [])).written = [] ∧
    (frameStarted (tableExternals none) (boundState [])).state = boundState [] ∧
    (frameStarted (tableExternals none) (boundState [])).result = .ok true :=
  ⟨rfl, frameStarted_empty (tableExternals none) (boundState []) rfl⟩

/-- C6: the box of `getWorldBoundingBox(root, leftOut)`, for a child `leftOut` of `root` as for
any other node, is contained in the box of `getWorldBoundingBox(root, nullptr)`. -/
theorem getWorldBoundingBox_leftOut_contained {R : Type} [LinearOrder R] (root : SceneNode R)
    (leftOut : Option Nat) :
    (getWorldBoundingBox root none).contains (getWorldBoundingBox root leftOut) := by
  rw [getWorldBoundingBox_eq, getWorldBoundingBox_eq]
  exact mergeAll_contains_of_subset (AxisAlignedBox.contains_refl _)
    (fun n hn => mem_keptNodes_of_kept none (kept_none_of_kept (kept_of_mem_keptNodes _ _ n hn)))

/-- C7: in a tree whose nodes have distinct addresses, `getWorldBoundingBox(root, root)` contains
the world box of `root` itself and equals `getWorldBoundingBox(root, nullptr)`. -/
theorem getWorldBoundingBox_leftOut_root {R : Type} [LinearOrder R] (root : SceneNode R)
    (h : root.distinct) :
    (getWorldBoundingBox root (some root.id)).contains root._getWorldAABB ∧
    getWorldBoundingBox root (some root.id) = getWorldBoundingBox root none := by
  have hk : keptNodes (some root.id) root = keptNodes none root := by
    apply keptChildren_root_address
    cases root with
    | mk i b cs =>
      unfold SceneNode.distinct at h
      simp only [SceneNode.addresses, List.nodup_cons] at h
      exact h.1
  refine ⟨?_, by rw [getWorldBoundingBox_eq, getWorldBoundingBox_eq, hk]⟩
  rw [getWorldBoundingBox_eq]
  exact contains_mergeAll_mem _ (mem_keptNodes_of_kept _ (Kept.self root))

/-- Witness of C7: the sample tree, with its root left out. -/
theorem getWorldBoundingBox_leftOut_root_witness :
    sampleTree.distinct ∧
    (getWorldBoundingBox sampleTree (some sampleTree.id)).contains sampleTree._getWorldAABB ∧
    getWorldBoundingBox sampleTree (some sampleTree.id) = getWorldBoundingBox sampleTree none :=
  ⟨by decide, getWorldBoundingBox_leftOut_root sampleTree (by decide)⟩

/-- C9: the traversal of `getWorldBoundingBox(root, leftOut)` is total and returns the merge of
the world boxes of the nodes `d` with `Kept leftOut root d`: the root, and every descendant
such that neither it nor any of its ancestors strictly below the root is `leftOut`. The nodes
are listed by `keptNodes`, and any other list with the same members merges to the same box. -/
theorem getWorldBoundingBox_merges_kept_nodes {R : Type} [LinearOrder R] (root : SceneNode R)
    (leftOut : Option Nat) :
    getWorldBoundingBox root leftOut = mergeAll .null (keptNodes leftOut root) ∧
    (∀ d, d ∈ keptNodes leftOut root ↔ Kept leftOut root d) ∧
    (∀ l : List (SceneNode R), (∀ d, d ∈ l ↔ Kept leftOut root d) →
      getWorldBoundingBox root leftOut = mergeAll .null l) := by
  refine ⟨getWorldBoundingBox_eq root leftOut, mem_keptNodes_iff leftOut root, ?_⟩
  intro l hl
  rw [getWorldBoundingBox_eq]
  exact mergeAll_eq_of_same_members _
    (fun n => (mem_keptNodes_iff leftOut root n).trans (hl n).symm)

end X3D
